import Mathlib

/- Verification development for the conversations_mj repository.

   Part 1 models the Inflight Admission Counter protocol specified for the
   OpenGateLLM gateway in docs/ogllm-inflight-counter-bug.md.  The gateway
   source itself is not part of this repository (only the bug analysis and
   the specification are), so every definition in this part is modelled
   from the specification text, as its doc comment records.

   Part 2 embeds two pure utility functions that do live in this
   repository: groupConversationsByDate
   (src/frontend/apps/conversations/src/features/left-panel/utils/groupConversationsByDate.ts)
   and exportTableToCSV (the table-export utility module). -/

namespace InflightCounter

/-- Modelled from the spec: the result of one raw store operation
(section 4.1 error taxonomy).  `transient` is a classified-transient store
error (connection failure, timeout, generic store error); `fatal` is a
non-transient error (malformed key, auth failure).  Errors carry an
identifier so that "the last encountered error" is expressible. -/
inductive OpResult (α : Type) where
  | ok (v : α)
  | transient (e : Nat)
  | fatal (e : Nat)
deriving DecidableEq, Repr

/-- Modelled from the spec: the tri-state Operation Outcome of section 3:
`value` is success with the operation value, `absent` is the
distinguished absent-value sentinel returned after exhausted retries
(never a falsy domain value), `raised` is a propagated error. -/
inductive Outcome (α : Type) where
  | value (v : α)
  | absent
  | raised (e : Nat)
deriving DecidableEq, Repr

/-- `true` exactly on a `raised` outcome. -/
def Outcome.isRaised : Outcome α → Bool
  | Outcome.raised _ => true
  | _ => false

/-- Modelled from the spec: the retry loop of the Retrying Store Operation
(section 4.1, `redis_retry` in the bug report); the OpenGateLLM source is
not in this repository.  `op a` is the result of the wrapped store
operation on its attempt number `a` (numbered from 0); `fuel` is the
number of additional retries still allowed.  A transient error is retried
while fuel remains; a non-transient error propagates immediately; on
exhaustion the absent sentinel is returned, or the last encountered error
is re-raised when `raiseOnFailure` is set.  The second component of the
result is the total number of invocations of `op`.  Backoff sleeping has
no bearing on the outcome and is not modelled. -/
def retryFrom (op : Nat → OpResult α) (raiseOnFailure : Bool) :
    Nat → Nat → Outcome α × Nat
  | fuel, attempt =>
    match op attempt with
    | OpResult.ok v => (Outcome.value v, attempt + 1)
    | OpResult.fatal e => (Outcome.raised e, attempt + 1)
    | OpResult.transient e =>
      match fuel with
      | 0 => (if raiseOnFailure then Outcome.raised e else Outcome.absent, attempt + 1)
      | f + 1 => retryFrom op raiseOnFailure f (attempt + 1)

/-- Modelled from the spec: the Retrying Store Operation entry point
(section 4.1): attempt the operation, retrying up to `maxRetries`
additional times. -/
def redisRetry (op : Nat → OpResult α) (maxRetries : Nat)
    (raiseOnFailure : Bool) : Outcome α × Nat :=
  retryFrom op raiseOnFailure maxRetries 0

theorem retryFrom_ok {op : Nat → OpResult α} {a : Nat} {v : α}
    (h : op a = OpResult.ok v) (b : Bool) (fuel : Nat) :
    retryFrom op b fuel a = (Outcome.value v, a + 1) := by
  cases fuel <;> simp [retryFrom, h]

theorem retryFrom_fatal {op : Nat → OpResult α} {a e : Nat}
    (h : op a = OpResult.fatal e) (b : Bool) (fuel : Nat) :
    retryFrom op b fuel a = (Outcome.raised e, a + 1) := by
  cases fuel <;> simp [retryFrom, h]

theorem retryFrom_transient_zero {op : Nat → OpResult α} {a e : Nat}
    (h : op a = OpResult.transient e) (b : Bool) :
    retryFrom op b 0 a
      = (if b then Outcome.raised e else Outcome.absent, a + 1) := by
  simp [retryFrom, h]

theorem retryFrom_transient_succ {op : Nat → OpResult α} {a e : Nat}
    (h : op a = OpResult.transient e) (b : Bool) (f : Nat) :
    retryFrom op b (f + 1) a = retryFrom op b f (a + 1) := by
  conv =>
    lhs
    rw [retryFrom]
  rw [h]

/-- The retry loop never invokes the operation more than
`fuel + 1` times beyond the starting attempt. -/
theorem retryFrom_count_le (op : Nat → OpResult α) (b : Bool) :
    ∀ fuel a, (retryFrom op b fuel a).2 ≤ a + fuel + 1 := by
  intro fuel
  induction fuel with
  | zero =>
    intro a
    rw [retryFrom]
    cases h : op a <;> simp
  | succ f ih =>
    intro a
    rw [retryFrom]
    cases h : op a <;> simp
    exact le_trans (ih (a + 1)) (by omega)

/-- C3: a wrapped store operation that fails with a classified-transient
error on every attempt, run with max_retries = 2, invokes the underlying
operation at most 3 times (here: exactly 3, and in general at most
maxRetries + 1), then returns the distinguished absent sentinel (never a
falsy domain value such as 0) when raise_on_failure is false, and
re-raises the last encountered error (the one of the third attempt) when
raise_on_failure is true. -/
theorem redisRetry_exhaustion (op : Nat → OpResult Int)
    (hall : ∀ n, ∃ e, op n = OpResult.transient e) :
    redisRetry op 2 false = (Outcome.absent, 3)
      ∧ (∀ e, op 2 = OpResult.transient e
          → redisRetry op 2 true = (Outcome.raised e, 3))
      ∧ (redisRetry op 2 false).1 ≠ Outcome.value 0
      ∧ (∀ b, (redisRetry op 2 b).2 ≤ 3) := by
  obtain ⟨e0, h0⟩ := hall 0
  obtain ⟨e1, h1⟩ := hall 1
  obtain ⟨e2, h2⟩ := hall 2
  have hrun : ∀ b, redisRetry op 2 b
      = (if b then Outcome.raised e2 else Outcome.absent, 3) := by
    intro b
    rw [redisRetry, retryFrom_transient_succ h0, retryFrom_transient_succ h1,
      retryFrom_transient_zero h2]
  refine ⟨?_, ?_, ?_, ?_⟩
  · simpa using hrun false
  · intro e he
    have : e = e2 := by
      have h := he.symm.trans h2
      exact (OpResult.transient.injEq e e2).mp h
    subst this
    simpa using hrun true
  · rw [hrun false]
    simp
  · intro b
    rw [hrun b]

/-- C3 witness: the always-failing operation with error identifiers equal
to the attempt number. -/
theorem redisRetry_exhaustion_concrete :
    redisRetry (fun n => (OpResult.transient n : OpResult Int)) 2 false
        = (Outcome.absent, 3)
      ∧ redisRetry (fun n => (OpResult.transient n : OpResult Int)) 2 true
        = (Outcome.raised 2, 3) := by
  have h := redisRetry_exhaustion (fun n => (OpResult.transient n : OpResult Int))
    (fun n => ⟨n, rfl⟩)
  exact ⟨h.1, h.2.1 2 rfl⟩

/-- C7: a wrapped store operation that fails with a non-transient error on
its first attempt makes the Retrying Store Operation propagate that error
immediately: the underlying operation is invoked exactly once and the
error is raised, for every retry budget and either raise flag. -/
theorem redisRetry_fatal_immediate (op : Nat → OpResult Int) (e : Nat)
    (h : op 0 = OpResult.fatal e) (maxRetries : Nat) (b : Bool) :
    redisRetry op maxRetries b = (Outcome.raised e, 1) := by
  rw [redisRetry, retryFrom_fatal h]

/-- C7 witness: a concrete operation failing fatally on attempt 0. -/
theorem redisRetry_fatal_immediate_concrete :
    redisRetry (fun _ => (OpResult.fatal 7 : OpResult Int)) 5 false
      = (Outcome.raised 7, 1) :=
  redisRetry_fatal_immediate (fun _ => (OpResult.fatal 7 : OpResult Int)) 7 rfl 5 false

/-- Modelled from the spec: one successful atomic store update in an
interleaving of concurrent guarded units of work (section 5): unit `u`
either increments or decrements the shared counter by one. -/
inductive Event where
  | inc (u : Nat)
  | dec (u : Nat)
deriving DecidableEq, Repr

/-- Modelled from the spec: the effect of one successful atomic
increment or decrement on the counter value (section 4.2 numeric
semantics: atomic integer add and subtract at the store level). -/
def applyEvent (c : Int) : Event → Int
  | Event.inc _ => c + 1
  | Event.dec _ => c - 1

/-- Modelled from the spec: the counter value after a whole interleaving
of store updates has been applied, starting from `c`. -/
def runSchedule (c : Int) (es : List Event) : Int :=
  es.foldl applyEvent c

/-- The canonical event multiset of `n` guarded units of work in which
every increment and every decrement succeeds: unit `u` contributes
exactly one increment and one decrement. -/
def unitEvents (n : Nat) : List Event :=
  (List.range n).flatMap fun u => [Event.inc u, Event.dec u]

def Event.isInc : Event → Bool
  | Event.inc _ => true
  | Event.dec _ => false

theorem runSchedule_eq (es : List Event) : ∀ c : Int,
    runSchedule c es
      = c + (es.countP Event.isInc : Int)
          - (es.countP (fun e => !Event.isInc e) : Int) := by
  induction es with
  | nil => intro c; simp [runSchedule]
  | cons e t ih =>
    intro c
    cases e with
    | inc u =>
      have := ih (c + 1)
      simp only [runSchedule, List.foldl_cons] at this ⊢
      rw [show applyEvent c (Event.inc u) = c + 1 from rfl, this]
      simp [List.countP_cons, Event.isInc]
      omega
    | dec u =>
      have := ih (c - 1)
      simp only [runSchedule, List.foldl_cons] at this ⊢
      rw [show applyEvent c (Event.dec u) = c - 1 from rfl, this]
      simp [List.countP_cons, Event.isInc]
      omega

theorem unitEvents_counts (n : Nat) :
    (unitEvents n).countP Event.isInc = n
      ∧ (unitEvents n).countP (fun e => !Event.isInc e) = n := by
  induction n with
  | zero => simp [unitEvents]
  | succ m ih =>
    have hsplit : unitEvents (m + 1)
        = unitEvents m ++ [Event.inc m, Event.dec m] := by
      simp [unitEvents, List.range_succ]
    rw [hsplit]
    refine ⟨?_, ?_⟩
    · rw [List.countP_append, ih.1]
      simp [List.countP_cons, Event.isInc]
    · rw [List.countP_append, ih.2]
      simp [List.countP_cons, Event.isInc]

/-- C2: for every N and every interleaving of N concurrent guarded units
of work in which every increment and every decrement store operation
succeeds (the interleaving is any permutation of the N units' increment
and decrement events), the counter value after all N units complete
equals its value before the sequence started. -/
theorem counter_returns_to_baseline (c : Int) (n : Nat) (es : List Event)
    (hperm : es.Perm (unitEvents n)) :
    runSchedule c es = c := by
  have hinc : es.countP Event.isInc = n :=
    (hperm.countP_eq Event.isInc).trans (unitEvents_counts n).1
  have hdec : es.countP (fun e => !Event.isInc e) = n :=
    (hperm.countP_eq (fun e => !Event.isInc e)).trans (unitEvents_counts n).2
  rw [runSchedule_eq, hinc, hdec]
  omega

/-- C2 witness: two units interleaved as inc 0, inc 1, dec 0, dec 1,
starting from counter value 5. -/
theorem counter_returns_to_baseline_concrete :
    runSchedule 5 [Event.inc 0, Event.inc 1, Event.dec 0, Event.dec 1] = 5 :=
  counter_returns_to_baseline 5 2
    [Event.inc 0, Event.inc 1, Event.dec 0, Event.dec 1] (by decide)

/-- Modelled from the spec: the states of one request's interaction with
the Admission Guard (section 4.4 state machine, upper-case names in the
spec text): IDLE, ACQUIRING, ACQUIRED, ACQUIRE_FAILED, RELEASED, SKIPPED,
DONE. -/
inductive GuardState where
  | idle
  | acquiring
  | acquired
  | acquireFailed
  | released
  | skipped
  | done
deriving DecidableEq, Repr

/-- Modelled from the spec: the permitted transitions of the guard state
machine (section 4.4): IDLE → ACQUIRING → {ACQUIRED, ACQUIRE_FAILED},
then RELEASED from ACQUIRED only, SKIPPED from ACQUIRE_FAILED, and both
to DONE.  There is no transition from ACQUIRE_FAILED to RELEASED. -/
inductive GuardStep : GuardState → GuardState → Prop where
  | start : GuardStep GuardState.idle GuardState.acquiring
  | acquireOk : GuardStep GuardState.acquiring GuardState.acquired
  | acquireFail : GuardStep GuardState.acquiring GuardState.acquireFailed
  | release : GuardStep GuardState.acquired GuardState.released
  | skipRelease : GuardStep GuardState.acquireFailed GuardState.skipped
  | finishReleased : GuardStep GuardState.released GuardState.done
  | finishSkipped : GuardStep GuardState.skipped GuardState.done

/-- Modelled from the spec: the three ways the guarded unit of work can
finish (section 4.3 exit paths): normal return, thrown error, or
cancellation. -/
inductive WorkOutcome where
  | normal
  | thrown
  | cancelled
deriving DecidableEq, Repr

/-- Modelled from the spec: the Admission Token (section 3): set to
acquired only when the increment outcome indicates real success, never
unconditionally. -/
def acquiredToken (incOutcome : Outcome Int) : Bool :=
  match incOutcome with
  | Outcome.value _ => true
  | _ => false

/-- Record of one run of the Admission Guard around one unit of work. -/
structure GuardRun where
  token : Bool
  workRan : Bool
  decrementCalls : Nat
  surfacedAcquireFailure : Bool
  result : WorkOutcome
  trace : List GuardState
deriving DecidableEq, Repr

/-- Modelled from the spec: the Admission Guard (section 4.3): on entry
the increment runs and the token records whether it really succeeded; the
unit of work runs regardless (fail-open admission, the acquisition
failure is never surfaced to the requester); on every exit path the
decrement is called exactly when the token indicates acquired; the
guarded work's own result is passed through unchanged.  The trace lists
the guard states visited, in order. -/
def runGuard (incOutcome : Outcome Int) (work : WorkOutcome) : GuardRun :=
  let tok := acquiredToken incOutcome
  ⟨tok, true, if tok then 1 else 0, false, work,
    [GuardState.idle, GuardState.acquiring,
      if tok then GuardState.acquired else GuardState.acquireFailed,
      if tok then GuardState.released else GuardState.skipped,
      GuardState.done]⟩

/-- C1: for every guarded unit of work and every exit path (normal
return, thrown error, or cancellation), the guard's exit step calls
decrement exactly once when the admission token was set to acquired and
zero times when it was not; every trace of the guard follows the state
machine; and in the state machine no execution ever reaches RELEASED
from ACQUIRE_FAILED. -/
theorem guard_release_iff_acquired :
    (∀ incOutcome work, (runGuard incOutcome work).decrementCalls
        = if acquiredToken incOutcome then 1 else 0)
      ∧ (∀ incOutcome work, List.Chain' GuardStep (runGuard incOutcome work).trace)
      ∧ (∀ s, Relation.ReflTransGen GuardStep GuardState.acquireFailed s
          → s ≠ GuardState.released) := by
  refine ⟨fun incOutcome work => rfl, ?_, ?_⟩
  · intro incOutcome work
    cases h : acquiredToken incOutcome <;>
      simp [runGuard, h] <;>
      exact ⟨GuardStep.start, by constructor, by constructor, by constructor⟩
  · intro s hreach
    have hinv : s = GuardState.acquireFailed ∨ s = GuardState.skipped
        ∨ s = GuardState.done := by
      induction hreach with
      | refl => exact Or.inl rfl
      | tail _ hstep ih =>
        rcases ih with h | h | h <;> subst h <;> cases hstep <;> simp
    rcases hinv with h | h | h <;> subst h <;> simp

/-- C1 witness: a successful increment with a thrown unit of work
decrements once; a failed increment with a cancelled unit of work
decrements zero times; SKIPPED, reached from ACQUIRE_FAILED, is not
RELEASED. -/
theorem guard_release_iff_acquired_concrete :
    (runGuard (Outcome.value 3) WorkOutcome.thrown).decrementCalls = 1
      ∧ (runGuard Outcome.absent WorkOutcome.cancelled).decrementCalls = 0
      ∧ GuardState.skipped ≠ GuardState.released := by
  refine ⟨?_, ?_, ?_⟩
  · have h := guard_release_iff_acquired.1 (Outcome.value 3) WorkOutcome.thrown
    simpa [acquiredToken] using h
  · have h := guard_release_iff_acquired.1 Outcome.absent WorkOutcome.cancelled
    simpa [acquiredToken] using h
  · exact guard_release_iff_acquired.2.2 GuardState.skipped
      (Relation.ReflTransGen.single GuardStep.skipRelease)

/-- C6: for every guarded unit of work whose increment raises or exhausts
its retries (so its outcome is not a real success), the guard records the
token as not acquired, the work still executes (fail-open), the
acquisition failure is not surfaced to the requester, and that unit's
decrement call count is zero. -/
theorem guard_failed_acquire_fail_open (incOutcome : Outcome Int)
    (work : WorkOutcome) (hfail : acquiredToken incOutcome = false) :
    (runGuard incOutcome work).token = false
      ∧ (runGuard incOutcome work).workRan = true
      ∧ (runGuard incOutcome work).surfacedAcquireFailure = false
      ∧ (runGuard incOutcome work).decrementCalls = 0 := by
  refine ⟨hfail, rfl, rfl, ?_⟩
  simp [runGuard, hfail]

/-- C6 witness: an increment that exhausted its retries (absent outcome)
around a normally returning unit of work. -/
theorem guard_failed_acquire_fail_open_concrete :
    (runGuard Outcome.absent WorkOutcome.normal).token = false
      ∧ (runGuard Outcome.absent WorkOutcome.normal).workRan = true
      ∧ (runGuard Outcome.absent WorkOutcome.normal).surfacedAcquireFailure = false
      ∧ (runGuard Outcome.absent WorkOutcome.normal).decrementCalls = 0 :=
  guard_failed_acquire_fail_open Outcome.absent WorkOutcome.normal rfl

/-- Modelled from the spec: the Inflight Counter's decrement (sections
4.2 and 4.3): attempted through the Retrying Store Operation, but
best-effort — a raised outcome is caught and logged rather than
propagated, so decrement never raises to its caller. -/
def counterDecrement (op : Nat → OpResult Int) (maxRetries : Nat) :
    Outcome Int × Nat :=
  match redisRetry op maxRetries false with
  | (Outcome.raised _, n) => (Outcome.absent, n)
  | r => r

/-- C8: for every key and every behaviour of the underlying store
(including failure on every attempt), the decrement operation never
raises an error to its caller, and a release failure never alters the
guarded work's own result. -/
theorem decrement_never_raises :
    (∀ (op : Nat → OpResult Int) (maxRetries : Nat),
        (counterDecrement op maxRetries).1.isRaised = false)
      ∧ (∀ incOutcome work, (runGuard incOutcome work).result = work) := by
  refine ⟨?_, fun incOutcome work => rfl⟩
  intro op maxRetries
  rw [counterDecrement]
  rcases h : redisRetry op maxRetries false with ⟨o, n⟩
  cases o <;> simp [Outcome.isRaised]

/-- Modelled from the spec: the result of the QoS Policy's simple get of
the counter key (section 4.4): a stored value, a missing key (expired or
never created), or an unreachable store. -/
inductive ReadResult where
  | value (v : Int)
  | missing
  | unreachable
deriving DecidableEq, Repr

/-- Modelled from the spec: the QoS Policy (section 4.4,
`shouldAdmit(key, threshold)`): reads the current counter value with a
simple get and returns false when the value is at or above the
threshold; a missing key is treated as zero; a read failure (store
unreachable) fails open and admits. -/
def shouldAdmit (read : ReadResult) (threshold : Int) : Bool :=
  match read with
  | ReadResult.value v => decide (v < threshold)
  | ReadResult.missing => decide ((0 : Int) < threshold)
  | ReadResult.unreachable => true

/-- C4: shouldAdmit returns false exactly when the value read is at or
above the threshold; a missing key behaves as value zero, hence is
admitted for any positive threshold; an unreachable store fails open
(admit). -/
theorem shouldAdmit_spec (v threshold : Int) :
    (shouldAdmit (ReadResult.value v) threshold = false ↔ threshold ≤ v)
      ∧ shouldAdmit ReadResult.missing threshold
          = shouldAdmit (ReadResult.value 0) threshold
      ∧ (0 < threshold → shouldAdmit ReadResult.missing threshold = true)
      ∧ shouldAdmit ReadResult.unreachable threshold = true := by
  refine ⟨?_, rfl, ?_, rfl⟩
  · simp [shouldAdmit]
  · intro hpos
    simp [shouldAdmit, hpos]

/-- C4 witness: value 5 against threshold 5 is rejected; a missing key
against threshold 5 is admitted; an unreachable store admits. -/
theorem shouldAdmit_spec_concrete :
    shouldAdmit (ReadResult.value 5) 5 = false
      ∧ shouldAdmit ReadResult.missing 5 = true
      ∧ shouldAdmit ReadResult.unreachable 5 = true := by
  have h := shouldAdmit_spec 5 5
  exact ⟨h.1.mpr (by omega), h.2.2.1 (by omega), h.2.2.2⟩

/-- Modelled from the spec: the stored state of one counter key (sections
3 and 4.2): its integer value and the seconds left before its TTL
expires. -/
structure Entry where
  value : Int
  ttl : Nat
deriving DecidableEq, Repr

/-- Modelled from the spec: the store calls issued by the Inflight
Counter operations (section 6 store protocol). -/
inductive StoreCall where
  | incrCall
  | decrCall
  | expireCall (ttlSeconds : Nat)
  | getCall
deriving DecidableEq, Repr

/-- Modelled from the spec: a successful increment followed by its
refreshExpiry (section 4.2): the atomic add creates the key at zero when
missing and adds one, and the expiry refresh sets the TTL to the
configured number of seconds; the list of store calls issued is returned
alongside the new key state. -/
def incrementThenRefresh (st : Option Entry) (ttlSeconds : Nat) :
    Option Entry × List StoreCall :=
  let v := (match st with | none => 0 | some e => e.value) + 1
  (some ⟨v, ttlSeconds⟩, [StoreCall.incrCall, StoreCall.expireCall ttlSeconds])

/-- Modelled from the spec: the passage of `t` seconds with no further
store operations (section 4.2 TTL self-healing): once the TTL elapses
the key becomes absent. -/
def elapse (st : Option Entry) (t : Nat) : Option Entry :=
  match st with
  | none => none
  | some e => if e.ttl ≤ t then none else some ⟨e.value, e.ttl - t⟩

/-- Modelled from the spec: the simple get the QoS Policy performs on the
key state (section 4.4). -/
def readKey (st : Option Entry) : ReadResult :=
  match st with
  | none => ReadResult.missing
  | some e => ReadResult.value e.value

/-- C5: after every successful increment a refreshExpiry call with the
configured TTL (here the recommended 300 seconds) is issued on the
counter key, immediately after the increment call; and if that TTL
elapses with no further increments the key becomes absent, so that
shouldAdmit subsequently treats it as zero. -/
theorem increment_refreshes_expiry (st : Option Entry) (t : Nat)
    (threshold : Int) (helapsed : 300 ≤ t) :
    (incrementThenRefresh st 300).2
        = [StoreCall.incrCall, StoreCall.expireCall 300]
      ∧ readKey (elapse (incrementThenRefresh st 300).1 t) = ReadResult.missing
      ∧ shouldAdmit (readKey (elapse (incrementThenRefresh st 300).1 t)) threshold
          = shouldAdmit (ReadResult.value 0) threshold := by
  have hmiss : readKey (elapse (incrementThenRefresh st 300).1 t)
      = ReadResult.missing := by
    simp [incrementThenRefresh, elapse, helapsed, readKey]
  exact ⟨rfl, hmiss, by rw [hmiss]; rfl⟩

/-- C5 witness: a fresh key incremented once, with 400 seconds of silence
and threshold 5. -/
theorem increment_refreshes_expiry_concrete :
    (incrementThenRefresh none 300).2
        = [StoreCall.incrCall, StoreCall.expireCall 300]
      ∧ readKey (elapse (incrementThenRefresh none 300).1 400) = ReadResult.missing
      ∧ shouldAdmit (readKey (elapse (incrementThenRefresh none 300).1 400)) 5
          = shouldAdmit (ReadResult.value 0) 5 :=
  increment_refreshes_expiry none 400 5 (by omega)

end InflightCounter

namespace Conversations

/- Embedding of
   src/frontend/apps/conversations/src/features/left-panel/utils/groupConversationsByDate.ts.
   Dates are represented by their local-midnight day index: every date the
   source constructs is truncated to midnight before comparison, Date
   comparison is order-isomorphic to the day index, and setDate(d - k)
   shifts the index by k days. -/

/-- The TimeGroup union type of groupConversationsByDate.ts. -/
inductive TimeGroup where
  | today
  | yesterday
  | last7days
  | last30days
  | older
deriving DecidableEq, Repr

/-- A conversation, reduced to the fields the grouping reads: an identity
and the day index of its updated_at timestamp. -/
structure ChatConversation where
  id : Nat
  updated_at : Int
deriving DecidableEq, Repr

/-- Embeds getTimeGroup: compares the conversation's midnight-truncated
date against today, yesterday, 7 days ago and 30 days ago, in that
order (conversationDate >= cutoff becomes cutoff ≤ conversationDay). -/
def getTimeGroup (conversationDay : Int) (todayDay : Int) : TimeGroup :=
  if todayDay ≤ conversationDay then TimeGroup.today
  else if todayDay - 1 ≤ conversationDay then TimeGroup.yesterday
  else if todayDay - 7 ≤ conversationDay then TimeGroup.last7days
  else if todayDay - 30 ≤ conversationDay then TimeGroup.last30days
  else TimeGroup.older

/-- The GroupedConversations output record of groupConversationsByDate.ts. -/
structure GroupedConversations where
  group : TimeGroup
  conversations : List ChatConversation
deriving DecidableEq, Repr

/-- The groups record literal of groupConversationsByDate: one bucket per
TimeGroup, each starting empty. -/
structure Groups where
  today : List ChatConversation
  yesterday : List ChatConversation
  last7days : List ChatConversation
  last30days : List ChatConversation
  older : List ChatConversation
deriving DecidableEq, Repr

/-- Bucket lookup, embedding the indexing groups[group]. -/
def Groups.get (gs : Groups) : TimeGroup → List ChatConversation
  | TimeGroup.today => gs.today
  | TimeGroup.yesterday => gs.yesterday
  | TimeGroup.last7days => gs.last7days
  | TimeGroup.last30days => gs.last30days
  | TimeGroup.older => gs.older

/-- Embeds groups[group].push(conversation): appends at the end of the
selected bucket, leaving the others unchanged. -/
def Groups.push (gs : Groups) (g : TimeGroup) (c : ChatConversation) : Groups :=
  match g with
  | TimeGroup.today =>
    ⟨gs.today ++ [c], gs.yesterday, gs.last7days, gs.last30days, gs.older⟩
  | TimeGroup.yesterday =>
    ⟨gs.today, gs.yesterday ++ [c], gs.last7days, gs.last30days, gs.older⟩
  | TimeGroup.last7days =>
    ⟨gs.today, gs.yesterday, gs.last7days ++ [c], gs.last30days, gs.older⟩
  | TimeGroup.last30days =>
    ⟨gs.today, gs.yesterday, gs.last7days, gs.last30days ++ [c], gs.older⟩
  | TimeGroup.older =>
    ⟨gs.today, gs.yesterday, gs.last7days, gs.last30days, gs.older ++ [c]⟩

/-- The empty groups record. -/
def emptyGroups : Groups := ⟨[], [], [], [], []⟩

/-- Embeds the forEach loop of groupConversationsByDate: classify each
conversation by its updated_at date and push it into its bucket, in
input order. -/
def buildGroups (now : Int) (convs : List ChatConversation) : Groups :=
  convs.foldl (fun gs c => gs.push (getTimeGroup c.updated_at now) c) emptyGroups

/-- The orderedGroups array literal of groupConversationsByDate. -/
def orderedGroups : List TimeGroup :=
  [TimeGroup.today, TimeGroup.yesterday, TimeGroup.last7days,
    TimeGroup.last30days, TimeGroup.older]

/-- Embeds groupConversationsByDate: build the buckets, keep the
non-empty ones in the fixed order, and wrap each as a record. -/
def groupConversationsByDate (now : Int) (convs : List ChatConversation) :
    List GroupedConversations :=
  let groups := buildGroups now convs
  (orderedGroups.filter (fun g => decide (0 < (groups.get g).length))).map
    (fun g => ⟨g, groups.get g⟩)

theorem Groups.get_push (gs : Groups) (g g2 : TimeGroup) (c : ChatConversation) :
    (gs.push g c).get g2
      = if g = g2 then gs.get g2 ++ [c] else gs.get g2 := by
  cases g <;> cases g2 <;> simp [Groups.push, Groups.get]

theorem buildGroups_get_aux (now : Int) :
    ∀ (convs : List ChatConversation) (gs : Groups) (g : TimeGroup),
      (convs.foldl (fun gs c => gs.push (getTimeGroup c.updated_at now) c) gs).get g
        = gs.get g
            ++ convs.filter (fun c => decide (getTimeGroup c.updated_at now = g)) := by
  intro convs
  induction convs with
  | nil => intro gs g; simp
  | cons c t ih =>
    intro gs g
    rw [List.foldl_cons, ih, List.filter_cons]
    by_cases hg : getTimeGroup c.updated_at now = g
    · simp [Groups.get_push, hg]
    · simp [Groups.get_push, hg]

/-- Each bucket of buildGroups is the in-order filter of the input by its
time group. -/
theorem buildGroups_get (now : Int) (convs : List ChatConversation)
    (g : TimeGroup) :
    (buildGroups now convs).get g
      = convs.filter (fun c => decide (getTimeGroup c.updated_at now = g)) := by
  rw [buildGroups, buildGroups_get_aux]
  cases g <;> simp [emptyGroups, Groups.get]

theorem flatten_filter_nonempty {χ : Type} (f : TimeGroup → List χ) :
    ∀ gs : List TimeGroup,
      ((gs.filter (fun g => decide (0 < (f g).length))).map f).flatten
        = (gs.map f).flatten := by
  intro gs
  induction gs with
  | nil => rfl
  | cons g t ih =>
    rw [List.filter_cons]
    by_cases h : 0 < (f g).length
    · rw [if_pos (by simpa using h)]
      rw [List.map_cons, List.flatten_cons, ih, List.map_cons, List.flatten_cons]
    · have hnil : f g = [] := by
        cases hf : f g with
        | nil => rfl
        | cons x xs => rw [hf] at h; simp at h
      rw [if_neg (by simpa using h), ih, List.map_cons, List.flatten_cons, hnil,
        List.nil_append]

theorem count_filter_eq {α : Type} [DecidableEq α] (p : α → Bool) (a : α)
    (l : List α) :
    List.count a (l.filter p) = if p a = true then List.count a l else 0 := by
  by_cases h : p a = true
  · rw [if_pos h, List.count_filter h]
  · have hnot : a ∉ l.filter p := fun hmem => h (List.mem_filter.mp hmem).2
    rw [if_neg h, List.count_eq_zero.mpr hnot]

/-- C9: groupConversationsByDate partitions its input: flattening the
output groups gives back a permutation of the input (every conversation
appears in exactly one group, total count preserved), and the output is
exactly the non-empty time groups, in the fixed order today, yesterday,
last7days, last30days, older, each carrying the in-order filter of the
input that falls in that group (relative input order preserved, group
present iff non-empty). -/
theorem groupConversationsByDate_spec (now : Int)
    (convs : List ChatConversation) :
    List.Perm
        (((groupConversationsByDate now convs).map
          GroupedConversations.conversations).flatten) convs
      ∧ groupConversationsByDate now convs
          = (orderedGroups.filter (fun g =>
              decide (0 < (convs.filter
                (fun c => decide (getTimeGroup c.updated_at now = g))).length))).map
             (fun g => ⟨g, convs.filter
                (fun c => decide (getTimeGroup c.updated_at now = g))⟩) := by
  have hchar : groupConversationsByDate now convs
      = (orderedGroups.filter (fun g =>
          decide (0 < (convs.filter
            (fun c => decide (getTimeGroup c.updated_at now = g))).length))).map
         (fun g => ⟨g, convs.filter
            (fun c => decide (getTimeGroup c.updated_at now = g))⟩) := by
    rw [groupConversationsByDate]
    have hget : ∀ g, (buildGroups now convs).get g
        = convs.filter (fun c => decide (getTimeGroup c.updated_at now = g)) :=
      buildGroups_get now convs
    have hfil : orderedGroups.filter
          (fun g => decide (0 < ((buildGroups now convs).get g).length))
        = orderedGroups.filter (fun g =>
            decide (0 < (convs.filter
              (fun c => decide (getTimeGroup c.updated_at now = g))).length)) :=
      List.filter_congr (fun g _ => by rw [hget g])
    rw [hfil]
    exact List.map_congr_left (fun g _ => by rw [hget g])
  refine ⟨?_, hchar⟩
  rw [hchar, List.map_map]
  have hmapconv : (GroupedConversations.conversations ∘ fun g =>
        (⟨g, convs.filter (fun c => decide (getTimeGroup c.updated_at now = g))⟩
          : GroupedConversations))
      = fun g => convs.filter (fun c => decide (getTimeGroup c.updated_at now = g)) :=
    rfl
  rw [hmapconv,
    flatten_filter_nonempty
      (fun g => convs.filter (fun c => decide (getTimeGroup c.updated_at now = g)))
      orderedGroups]
  rw [List.perm_iff_count]
  intro a
  simp only [orderedGroups, List.map_cons, List.map_nil, List.flatten_cons,
    List.flatten_nil, List.count_append, count_filter_eq, List.count_nil]
  cases hg : getTimeGroup a.updated_at now <;> simp [hg]

/-- C9 check on a concrete input: three conversations dated on day 100
(with today also day 100), day 99 and day 50 fall into the groups today,
yesterday and older, in that order, with the input order kept. -/
theorem groupConversationsByDate_concrete :
    groupConversationsByDate 100 [⟨1, 100⟩, ⟨2, 99⟩, ⟨3, 50⟩, ⟨4, 100⟩]
      = [⟨TimeGroup.today, [⟨1, 100⟩, ⟨4, 100⟩]⟩,
          ⟨TimeGroup.yesterday, [⟨2, 99⟩]⟩,
          ⟨TimeGroup.older, [⟨3, 50⟩]⟩] := by
  decide

end Conversations

namespace TableExport

/- Embedding of exportTableToCSV from the table-export utility module
   (src/unnamed/part_001).  The text handed to the download helper is
   modelled; the filename and MIME type are presentation details and are
   not. -/

/-- The TableData shape of the table-export module. -/
structure TableData where
  headers : List String
  rows : List (List String)
deriving DecidableEq, Repr

/-- The double-quote character as a string. -/
def dquote : String := String.singleton (Char.ofNat 34)

/-- The UTF-8 byte-order mark code point prepended by exportTableToCSV. -/
def bom : String := String.singleton (Char.ofNat 65279)

/-- Embeds Array.prototype.join(sep): the empty array joins to the empty
string, and elements are joined with the separator between consecutive
elements. -/
def joinSep (sep : String) : List String → String
  | [] => ""
  | [x] => x
  | x :: y :: t => x ++ sep ++ joinSep sep (y :: t)

/-- Embeds the global regex replace of a double quote by two double
quotes: every double-quote character of the cell is doubled. -/
def doubleQuotes (cell : String) : String :=
  String.join (cell.data.map
    (fun c => if c = Char.ofNat 34 then dquote ++ dquote else String.singleton c))

/-- Embeds the cell mapper of exportTableToCSV: the cell wrapped in
double quotes after doubling its embedded double quotes. -/
def escapeCell (cell : String) : String :=
  dquote ++ doubleQuotes cell ++ dquote

/-- Embeds the csvContent expression of exportTableToCSV: the header
cells joined with semicolons (as they are, neither quoted nor escaped),
then one line per row with every data cell escaped and the cells joined
with semicolons, the lines joined with newlines. -/
def csvContent (t : TableData) : String :=
  joinSep "\n"
    (joinSep ";" t.headers
      :: t.rows.map (fun row => joinSep ";" (row.map escapeCell)))

/-- Embeds exportTableToCSV: the downloaded text is the byte-order mark
prepended to the CSV content. -/
def exportTableToCSV (t : TableData) : String :=
  bom ++ csvContent t

/-- Joining as the claim words it, written independently of the
embedding: the separator is interspersed between the elements and the
result is concatenated left to right. -/
def specJoin (sep : String) (l : List String) : String :=
  (l.intersperse sep).foldl (fun a b => a ++ b) ""

/-- Escaping as the claim words it: walk the characters of the cell and
double every embedded double quote. -/
def specEscapeChars : List Char → String
  | [] => ""
  | c :: cs =>
    (if c = Char.ofNat 34 then dquote ++ dquote else String.singleton c)
      ++ specEscapeChars cs

/-- A data cell as the claim words it: wrapped in double quotes, with
each embedded double quote doubled. -/
def specEscape (cell : String) : String :=
  dquote ++ specEscapeChars cell.data ++ dquote

/-- The CSV text as the claim describes it: a UTF-8 BOM, then the header
cells joined with semicolons unquoted and unescaped, then one line per
row in which every data cell is escaped and the cells are joined with
semicolons, the lines separated by newlines. -/
def csvTextSpec (t : TableData) : String :=
  bom ++ specJoin "\n"
    (specJoin ";" t.headers
      :: t.rows.map (fun r => specJoin ";" (r.map specEscape)))

theorem string_foldl_append (l : List String) :
    ∀ a : String, l.foldl (fun x y => x ++ y) a
      = a ++ l.foldl (fun x y => x ++ y) "" := by
  induction l with
  | nil => intro a; simp [String.append_empty]
  | cons s t ih =>
    intro a
    rw [List.foldl_cons, List.foldl_cons, ih (a ++ s), ih ("" ++ s),
      String.empty_append, String.append_assoc]

theorem joinSep_eq_specJoin (sep : String) :
    ∀ l : List String, joinSep sep l = specJoin sep l := by
  intro l
  induction l with
  | nil => rfl
  | cons x t ih =>
    cases t with
    | nil =>
      rw [joinSep, specJoin, List.intersperse_single, List.foldl_cons,
        List.foldl_nil, String.empty_append]
    | cons y t2 =>
      rw [joinSep, specJoin, List.intersperse_cons₂, List.foldl_cons,
        List.foldl_cons, string_foldl_append, String.empty_append,
        String.append_assoc, ← specJoin, ← ih, String.append_assoc]

theorem doubleQuotes_eq_specEscapeChars (cell : String) :
    doubleQuotes cell = specEscapeChars cell.data := by
  rw [doubleQuotes, String.join]
  induction cell.data with
  | nil => rfl
  | cons c cs ih =>
    rw [List.map_cons, List.foldl_cons, string_foldl_append,
      String.empty_append, specEscapeChars, ih]

theorem escapeCell_eq_specEscape (cell : String) :
    escapeCell cell = specEscape cell := by
  rw [escapeCell, specEscape, doubleQuotes_eq_specEscapeChars]

/-- C10: for every TableData, exportTableToCSV builds the CSV text as a
UTF-8 BOM followed by the header cells joined with semicolons unquoted
and unescaped, then one line per row in which every data cell is wrapped
in double quotes with each embedded double quote doubled and the cells
joined with semicolons — so data cells containing a semicolon or a double
quote are escaped while header cells are not. -/
theorem exportTableToCSV_spec (t : TableData) :
    exportTableToCSV t = csvTextSpec t := by
  rw [exportTableToCSV, csvTextSpec, csvContent, joinSep_eq_specJoin,
    joinSep_eq_specJoin]
  have hrows : t.rows.map (fun row => joinSep ";" (row.map escapeCell))
      = t.rows.map (fun r => specJoin ";" (r.map specEscape)) := by
    refine List.map_congr_left (fun row _ => ?_)
    rw [joinSep_eq_specJoin]
    have : row.map escapeCell = row.map specEscape :=
      List.map_congr_left (fun cell _ => escapeCell_eq_specEscape cell)
    rw [this]
  rw [hrows]

end TableExport
